import Mathlib

/-!
# Risky Journals Sampler — verification of the analysis core

A shallow embedding of `risky_journals.py` (the `analyze` pipeline and the
pure aggregate computation of `write_outputs`) together with proofs of the
specification claims.

Modelling conventions:
* pandas float64 amounts are modelled as exact rationals (`ℚ`); a missing or
  unparsable amount (`NaN` after `pd.to_numeric(errors="coerce")`) is `none`.
* pandas timestamps are modelled by a calendar record (`DateTime`); `NaT`
  (after `pd.to_datetime(errors="coerce")`) is `none`.
* string columns (`memo`, `user`, `account`, `source`) are modelled as `String`.
* All definitions are computable so concrete batches can be evaluated.
-/

/-- ASCII-case model of Python's `str.lower` on a character:
characters `A`–`Z` (codes 65–90) shift by 32, everything else is unchanged. -/
def lowerChar (c : Char) : Char :=
  if 65 ≤ c.toNat ∧ c.toNat ≤ 90 then Char.ofNat (c.toNat + 32) else c

/-- ASCII-case model of Python's `str.upper` on a character. -/
def upperChar (c : Char) : Char :=
  if 97 ≤ c.toNat ∧ c.toNat ≤ 122 then Char.ofNat (c.toNat - 32) else c

/-- Model of `pandas.Series.str.lower` / Python `str.lower` (ASCII range). -/
def lowerStr (s : String) : String :=
  String.mk (s.data.map lowerChar)

/-- Model of `pandas.Series.str.upper` / Python `str.upper` (ASCII range). -/
def upperStr (s : String) : String :=
  String.mk (s.data.map upperChar)

/-- `occursIn needle hay`: `needle` occurs as a contiguous substring of `hay`
(model of Python's `term in s` on strings), via the character lists. -/
def occursIn (needle hay : String) : Bool :=
  hay.data.tails.any (fun t => needle.data.isPrefixOf t)

/-- Python / numpy `%` on reals with a positive modulus:
`pymod x m = x - m * ⌊x / m⌋` (the remainder takes the sign of `m`). -/
def pymod (x m : ℚ) : ℚ :=
  x - m * (⌊x / m⌋ : ℚ)

/-- Round to the nearest integer, ties to even — the rounding used by
`numpy.round` / `pandas.Series.round`. -/
def roundHalfEven (x : ℚ) : ℤ :=
  let f := ⌊x⌋
  let r := x - (f : ℚ)
  if r < 1/2 then f
  else if 1/2 < r then f + 1
  else if 2 ∣ f then f else f + 1

/-- `numpy.round(x, 2)` / `Series.round(2)`: round to 2 decimal places,
ties to even. -/
def npRound2 (x : ℚ) : ℚ :=
  (roundHalfEven (x * 100) : ℚ) / 100

/-- Render a natural number in decimal, left-padded with zeros to width `w`
(as Python does inside `str(datetime.date)`). -/
def padNum (w n : ℕ) : String :=
  String.mk (List.replicate (w - (toString n).length) '0') ++ toString n

/-- A pandas timestamp, reduced to the fields the program reads:
calendar date (`dt.date`, `dt.weekday`) and hour of day (`dt.hour`).
Finer time components influence neither any rule nor the duplicate key. -/
structure DateTime where
  year : ℕ
  month : ℕ
  day : ℕ
  hour : ℕ
deriving DecidableEq

/-- `pandas .dt.weekday` (Monday = 0 … Sunday = 6) via Zeller's congruence.
`−2J` is replaced by the congruent `+5J` to stay in `ℕ`. -/
def weekdayOf (t : DateTime) : ℕ :=
  let m := if t.month ≤ 2 then t.month + 12 else t.month
  let y := if t.month ≤ 2 then t.year - 1 else t.year
  let k := y % 100
  let j := y / 100
  let h := (t.day + (13 * (m + 1)) / 5 + k + k / 4 + j / 4 + 5 * j) % 7
  (h + 5) % 7

/-- One normalized journal row (§3 of the spec): the seven guaranteed columns
after `pd.to_numeric` / `pd.to_datetime` coercion, with `none` for a missing
or unparsable `amount`/`date`. -/
structure Row where
  entry_id : String
  date : Option DateTime
  user : String
  account : String
  source : String
  amount : Option ℚ
  memo : String
deriving DecidableEq

/-- The memo terms of `RISKY_MEMO_TERMS` in `risky_journals.py`. -/
def RISKY_MEMO_TERMS : List String :=
  ["manual override", "adjustment", "adj", "suspense",
   "top-side", "plug", "write-off", "reclass", "misc"]

/-- The fixed weight table `WEIGHTS` of `risky_journals.py`, as a function on
rule names (names outside the table get weight 0, which is never used). -/
def WEIGHTS (c : String) : ℕ :=
  if c = "round_100" then 1
  else if c = "round_1000" then 2
  else if c = "cents_zero" then 1
  else if c = "weekend" then 1
  else if c = "late_night" then 2
  else if c = "risky_memo" then 2
  else if c = "manual_source" then 2
  else if c = "duplicate" then 3
  else if c = "top1pct" then 2
  else 0

/-- The canonical rule order: the list `cols` in `analyze`. -/
def cols : List String :=
  ["round_100", "round_1000", "cents_zero",
   "weekend", "late_night",
   "risky_memo", "manual_source", "duplicate", "top1pct"]

/-- `_is_round_multiple` of `risky_journals.py`:
`(abs(float(x)) % m) == 0`, and `False` for a null amount
(`float('nan') % m` is `nan`, which compares unequal to 0). -/
def _is_round_multiple (x : Option ℚ) (m : ℚ) : Bool :=
  match x with
  | none => false
  | some q => decide (pymod |q| m = 0)

/-- The `cents_zero` rule: `np.round((np.abs(amount) * 100) % 100, 2) == 0.0`,
`False` for a null amount. -/
def centsZero (x : Option ℚ) : Bool :=
  match x with
  | none => false
  | some q => decide (npRound2 (pymod (|q| * 100) 100) = 0)

/-- The `weekend` rule: `date.dt.weekday.isin([5, 6])`, `False` for `NaT`. -/
def weekendFlag (d : Option DateTime) : Bool :=
  match d with
  | none => false
  | some t => decide (weekdayOf t = 5 ∨ weekdayOf t = 6)

/-- The `late_night` rule: `date.dt.hour.isin([22,23,0,1,2,3,4,5])`,
`False` for `NaT`. -/
def lateNightFlag (d : Option DateTime) : Bool :=
  match d with
  | none => false
  | some t =>
    decide (t.hour = 22 ∨ t.hour = 23 ∨ t.hour = 0 ∨ t.hour = 1 ∨
            t.hour = 2 ∨ t.hour = 3 ∨ t.hour = 4 ∨ t.hour = 5)

/-- The `risky_memo` rule: some term of `RISKY_MEMO_TERMS` occurs in the
lowercased memo. -/
def riskyMemoFlag (memo : String) : Bool :=
  RISKY_MEMO_TERMS.any (fun term => occursIn term (lowerStr memo))

/-- The `manual_source` rule: `source.str.upper().ne("SYSTEM")`. -/
def manualSourceFlag (source : String) : Bool :=
  !(upperStr source == "SYSTEM")

/-- The absolute values of the non-null amounts of the batch
(`d["amount"].abs()` with the `NaN` entries removed, as
`Series.quantile` skips them). -/
def absAmounts (d : List Row) : List ℚ :=
  (d.filterMap (fun r => r.amount)).map (fun q => |q|)

/-- `pandas.Series.quantile(q)` with the default linear interpolation:
on the sorted non-null values `s` (length `n`), the rank is `h = q·(n−1)` and
the result interpolates between `s[⌊h⌋]` and `s[⌈h⌉]`; `none` (pandas `NaN`)
when there are no values. -/
def quantileQ (q : ℚ) (xs : List ℚ) : Option ℚ :=
  let s := xs.mergeSort (fun a b => decide (a ≤ b))
  match s with
  | [] => none
  | _ :: _ =>
    let n := s.length
    let h : ℚ := q * ((n : ℚ) - 1)
    let i := (⌊h⌋).toNat
    let j := (⌈h⌉).toNat
    let lo := s.getD i 0
    let hi := s.getD j 0
    some (lo + (h - (i : ℚ)) * (hi - lo))

/-- The outlier cutoff of `analyze`:
`abs_amt.quantile(0.99) if len(d) >= 100 else abs_amt.quantile(0.95)`. -/
def cutoffOf (d : List Row) : Option ℚ :=
  if 100 ≤ d.length then quantileQ (99/100) (absAmounts d)
  else quantileQ (95/100) (absAmounts d)

/-- The four components of the duplicate identity: calendar day (or `none`
for `NaT`), account, amount rounded to 2 decimals (or `none` for `NaN`),
lowercased memo. -/
def compositeKey (r : Row) : Option (ℕ × ℕ × ℕ) × String × Option ℚ × String :=
  (r.date.map (fun t => (t.year, t.month, t.day)), r.account,
   r.amount.map npRound2, lowerStr r.memo)

/-- `date.dt.date.astype(str)`: ISO rendering of the calendar day,
`"NaT"` for a null date. -/
def dateKeyStr (d : Option (ℕ × ℕ × ℕ)) : String :=
  match d with
  | none => "NaT"
  | some (y, m, dd) => padNum 4 y ++ "-" ++ padNum 2 m ++ "-" ++ padNum 2 dd

/-- `amount.round(2).astype(str)`: Python float rendering of the rounded
amount (integer part, `.`, cents with a trailing zero dropped), `"nan"` for a
null amount. -/
def amtStr (a : Option ℚ) : String :=
  match a with
  | none => "nan"
  | some q =>
    let k : ℤ := ⌊q * 100⌋
    let n := k.natAbs
    let ip := n / 100
    let c := n % 100
    (if k < 0 then "-" else "") ++ toString ip ++ "." ++
      (if c % 10 = 0 then toString (c / 10) else padNum 2 c)

/-- The delimiter-joined duplicate key string built in `analyze`:
`date.dt.date.astype(str) + "|" + account + "|" + amount.round(2).astype(str)
+ "|" + memo.str.lower()`. -/
def keyString (k : Option (ℕ × ℕ × ℕ) × String × Option ℚ × String) : String :=
  dateKeyStr k.1 ++ "|" ++ k.2.1 ++ "|" ++ amtStr k.2.2.1 ++ "|" ++ k.2.2.2

/-- The duplicate key of one row, as the string the program computes. -/
def dupKey (r : Row) : String :=
  keyString (compositeKey r)

/-- One analyzed row: the seven input columns plus the columns `analyze`
adds (nine flags, `risk_score`, `reasons`, `abs_amount`). `reasons` is kept
as the comprehension list `[c for c in cols if bool(row[c])]`; the program
comma-joins it only when serializing. -/
structure ARow where
  entry_id : String
  date : Option DateTime
  user : String
  account : String
  source : String
  amount : Option ℚ
  memo : String
  round_100 : Bool
  round_1000 : Bool
  cents_zero : Bool
  weekend : Bool
  late_night : Bool
  risky_memo : Bool
  manual_source : Bool
  duplicate : Bool
  top1pct : Bool
  risk_score : ℕ
  reasons : List String
  abs_amount : ℚ
deriving DecidableEq

/-- Column lookup by rule name on an analyzed row (`row[c]` in the
score/reasons comprehension of `analyze`). -/
def flagOf (r : ARow) (c : String) : Bool :=
  if c = "round_100" then r.round_100
  else if c = "round_1000" then r.round_1000
  else if c = "cents_zero" then r.cents_zero
  else if c = "weekend" then r.weekend
  else if c = "late_night" then r.late_night
  else if c = "risky_memo" then r.risky_memo
  else if c = "manual_source" then r.manual_source
  else if c = "duplicate" then r.duplicate
  else if c = "top1pct" then r.top1pct
  else false

/-- The nine flag columns of one row, given the two batch-global aggregates
(the quantile cutoff and the full key list); score and reasons not yet
filled in. -/
def mkFlagsRow (cutoff : Option ℚ) (keys : List String) (r : Row) : ARow :=
  { entry_id := r.entry_id
    date := r.date
    user := r.user
    account := r.account
    source := r.source
    amount := r.amount
    memo := r.memo
    round_100 := _is_round_multiple r.amount 100
    round_1000 := _is_round_multiple r.amount 1000
    cents_zero := centsZero r.amount
    weekend := weekendFlag r.date
    late_night := lateNightFlag r.date
    risky_memo := riskyMemoFlag r.memo
    manual_source := manualSourceFlag r.source
    duplicate := decide (2 ≤ keys.count (dupKey r))
    top1pct :=
      match r.amount, cutoff with
      | some a, some c => decide (c ≤ |a|)
      | _, _ => false
    risk_score := 0
    reasons := []
    abs_amount :=
      match r.amount with
      | none => 0
      | some q => |q| }

/-- One fully scored row: flags, then
`risk_score = d[cols].mul(weights, axis=1).sum(axis=1)` and
`reasons = [c for c in cols if bool(row[c])]`, and
`abs_amount = amount.abs().fillna(0)`. -/
def scoreRow (cutoff : Option ℚ) (keys : List String) (r : Row) : ARow :=
  let b := mkFlagsRow cutoff keys r
  { b with
    risk_score := (cols.map (fun c => if flagOf b c then WEIGHTS c else 0)).sum
    reasons := cols.filter (fun c => flagOf b c) }

/-- Normalization of one row (§4.1): after the type coercions (already in the
`Row` model), an empty `source` becomes `"SYSTEM"`. -/
def normalizeRow (r : Row) : Row :=
  if r.source = "" then { r with source := "SYSTEM" } else r

/-- The comparison used by
`sort_values(["risk_score","abs_amount"], ascending=[False,False])`:
`a` sorts no later than `b` iff `a`'s (score, |amount|) pair is
lexicographically ≥ `b`'s. -/
def rkLE (a b : ARow) : Bool :=
  decide (b.risk_score < a.risk_score) ||
    (a.risk_score == b.risk_score && decide (b.abs_amount ≤ a.abs_amount))

/-- The entry table of `analyze` just before the final sort: normalized rows
with all columns added, in input order. -/
def scoredRows (df : List Row) : List ARow :=
  let d := df.map normalizeRow
  let cutoff := cutoffOf d
  let keys := d.map dupKey
  d.map (scoreRow cutoff keys)

/-- The `analyze` function of `risky_journals.py`: normalize, evaluate the
nine rules (with the two batch-global aggregates), score, and stably sort by
`(risk_score, abs_amount)` descending (`kind="mergesort"`). -/
def analyze (df : List Row) : List ARow :=
  (scoredRows df).mergeSort rkLE

/-- Projection of an analyzed row back to its seven input columns
(the columns `analyze` only adds to, never removes). -/
def baseOf (r : ARow) : Row :=
  { entry_id := r.entry_id
    date := r.date
    user := r.user
    account := r.account
    source := r.source
    amount := r.amount
    memo := r.memo }

/-- `write_outputs`: the flagged subset `d[d["risk_score"] >= 2]`. -/
def flaggedRows (d : List ARow) : List ARow :=
  d.filter (fun r => decide (2 ≤ r.risk_score))

/-- Occurrence counts of a list of strings, keyed in first-encountered order
(model of the grouping underlying `value_counts`). -/
def countsFirstSeen (xs : List String) : List (String × ℕ) :=
  xs.foldl
    (fun acc s =>
      if acc.any (fun p => p.1 == s) then
        acc.map (fun p => if p.1 == s then (p.1, p.2 + 1) else p)
      else acc ++ [(s, 1)])
    []

/-- Per-key sums of `risk_score`, keyed in first-encountered order
(model of the grouping underlying `groupby(key)["risk_score"].sum()`). -/
def groupSums (key : ARow → String) (rows : List ARow) : List (String × ℕ) :=
  rows.foldl
    (fun acc r =>
      if acc.any (fun p => p.1 == key r) then
        acc.map (fun p => if p.1 == key r then (p.1, p.2 + r.risk_score) else p)
      else acc ++ [(key r, r.risk_score)])
    []

/-- Descending order on counted pairs; the sort is stable, so ties stay in
first-encountered order. -/
def cntLE (a b : String × ℕ) : Bool :=
  decide (b.2 ≤ a.2)

/-- `risky["reasons"].str.split(",").explode().value_counts().head(5)`:
the reason names of the flagged rows, counted, sorted by count descending,
first five. -/
def topRulesOf (risky : List ARow) : List (String × ℕ) :=
  ((countsFirstSeen (risky.flatMap (fun r => r.reasons))).mergeSort cntLE).take 5

/-- `risky.groupby(key)["risk_score"].sum().sort_values(ascending=False)
.head(5)`. -/
def topByKey (key : ARow → String) (risky : List ARow) : List (String × ℕ) :=
  ((groupSums key risky).mergeSort cntLE).take 5

/-- The aggregate numbers of the summary report written by `write_outputs`. -/
structure Report where
  total : ℕ
  flagged : ℕ
  topRules : List (String × ℕ)
  byUser : List (String × ℕ)
  byAccount : List (String × ℕ)
deriving DecidableEq

/-- The pure aggregate computation of `write_outputs`: total and flagged
counts, and the three top-5 lists, which are all empty when no row is
flagged (`if flagged:` on the count). -/
def reportOf (d : List ARow) : Report :=
  let risky := flaggedRows d
  let total := d.length
  let flagged := risky.length
  if flagged ≠ 0 then
    { total := total
      flagged := flagged
      topRules := topRulesOf risky
      byUser := topByKey (fun r => r.user) risky
      byAccount := topByKey (fun r => r.account) risky }
  else
    { total := total, flagged := flagged,
      topRules := [], byUser := [], byAccount := [] }

/-- An arbitrary analyzed row, used as the default of `List.getD` when
stating positional properties of the output table. -/
def arowDefault : ARow :=
  { entry_id := "", date := none, user := "", account := "", source := "",
    amount := none, memo := "",
    round_100 := false, round_1000 := false, cents_zero := false,
    weekend := false, late_night := false, risky_memo := false,
    manual_source := false, duplicate := false, top1pct := false,
    risk_score := 0, reasons := [], abs_amount := 0 }

/-- Concrete row: its memo contains the `|` delimiter in a way that makes its
key string collide with `cexRow2`'s. -/
def cexRow1 : Row :=
  { entry_id := "e1", date := none, user := "u1", account := "A",
    source := "SYSTEM", amount := none, memo := "z|nan|w" }

/-- Concrete row: its account contains the `|` delimiter; its composite key
differs from `cexRow1`'s but its key string is identical. -/
def cexRow2 : Row :=
  { entry_id := "e2", date := none, user := "u2", account := "A|nan|z",
    source := "SYSTEM", amount := none, memo := "w" }

/-- The two-row batch exhibiting the delimiter collision of the duplicate
key. -/
def cexBatch : List Row := [cexRow1, cexRow2]

/-- Concrete duplicate pair: same day-less date, account, amount and memo,
different `entry_id` and `user`. -/
def dupRowA : Row :=
  { entry_id := "d1", date := none, user := "uA", account := "X",
    source := "SYSTEM", amount := none, memo := "m" }

/-- Second member of the concrete duplicate pair. -/
def dupRowB : Row :=
  { entry_id := "d2", date := none, user := "uB", account := "X",
    source := "SYSTEM", amount := none, memo := "m" }

/-- The two-row batch of true duplicates. -/
def dupBatch : List Row := [dupRowA, dupRowB]

/-- A row whose key is unique in its singleton batch. -/
def uniqRow : Row :=
  { entry_id := "q", date := none, user := "u", account := "Y",
    source := "SYSTEM", amount := none, memo := "only" }

/-- A generic single witness row: a Saturday 23:00 timestamp, a round manual
amount and a risky memo. -/
def wRow : Row :=
  { entry_id := "w1", date := some ⟨2024, 1, 6, 23⟩, user := "alice",
    account := "4000", source := "manual", amount := some 2000,
    memo := "Manual Override - Q3 ADJ" }

/-! ## Helper lemmas -/

theorem mergeSort_pair {α : Type _} (le : α → α → Bool) (a b : α) :
    [a, b].mergeSort le = if le a b then [a, b] else [b, a] := by
  simp [List.mergeSort, List.splitInTwo, List.splitAt, List.splitAt.go, List.merge]

theorem scoredRows_eq (df : List Row) :
    scoredRows df = (df.map normalizeRow).map
      (scoreRow (cutoffOf (df.map normalizeRow))
        ((df.map normalizeRow).map dupKey)) := rfl

theorem mem_analyze_iff {df : List Row} {r : ARow} :
    r ∈ analyze df ↔ r ∈ scoredRows df := List.mem_mergeSort

theorem exists_of_mem_analyze {df : List Row} {r : ARow} (h : r ∈ analyze df) :
    ∃ row ∈ df.map normalizeRow,
      r = scoreRow (cutoffOf (df.map normalizeRow))
        ((df.map normalizeRow).map dupKey) row := by
  rw [mem_analyze_iff, scoredRows_eq] at h
  obtain ⟨row, hrow, hr⟩ := List.mem_map.mp h
  exact ⟨row, hrow, hr.symm⟩

theorem analyze_length (df : List Row) : (analyze df).length = df.length := by
  rw [analyze, List.length_mergeSort, scoredRows_eq, List.length_map,
    List.length_map]

theorem analyze_nil : analyze [] = [] := by
  rw [analyze, show scoredRows [] = [] from rfl]
  exact List.mergeSort_nil

theorem analyze_singleton (row : Row) :
    analyze [row] = [scoreRow (cutoffOf [normalizeRow row])
      [dupKey (normalizeRow row)] (normalizeRow row)] := by
  rw [analyze, show scoredRows [row] = [scoreRow (cutoffOf [normalizeRow row])
    [dupKey (normalizeRow row)] (normalizeRow row)] from rfl]
  exact List.mergeSort_singleton _

theorem flagOf_scoreRow (c : Option ℚ) (k : List String) (row : Row)
    (name : String) :
    flagOf (scoreRow c k row) name = flagOf (mkFlagsRow c k row) name := rfl

theorem baseOf_scoreRow (c : Option ℚ) (k : List String) (row : Row) :
    baseOf (scoreRow c k row) = row := rfl

theorem risk_score_scoreRow (c : Option ℚ) (k : List String) (row : Row) :
    (scoreRow c k row).risk_score =
      (cols.map (fun n => if flagOf (mkFlagsRow c k row) n then WEIGHTS n
        else 0)).sum := rfl

theorem reasons_scoreRow (c : Option ℚ) (k : List String) (row : Row) :
    (scoreRow c k row).reasons =
      cols.filter (fun n => flagOf (mkFlagsRow c k row) n) := rfl

theorem sum_map_ite (l : List String) (f : String → Bool) (w : String → ℕ) :
    (l.map (fun c => if f c then w c else 0)).sum =
      ((l.filter f).map w).sum := by
  induction l with
  | nil => rfl
  | cons hd tl ih => by_cases h : f hd <;> simp [List.filter_cons, h, ih]

theorem amount_scoreRow (c : Option ℚ) (k : List String) (row : Row) :
    (scoreRow c k row).amount = row.amount := rfl

theorem date_scoreRow (c : Option ℚ) (k : List String) (row : Row) :
    (scoreRow c k row).date = row.date := rfl

theorem round_100_scoreRow (c : Option ℚ) (k : List String) (row : Row) :
    (scoreRow c k row).round_100 = _is_round_multiple row.amount 100 := rfl

theorem round_1000_scoreRow (c : Option ℚ) (k : List String) (row : Row) :
    (scoreRow c k row).round_1000 = _is_round_multiple row.amount 1000 := rfl

theorem cents_zero_scoreRow (c : Option ℚ) (k : List String) (row : Row) :
    (scoreRow c k row).cents_zero = centsZero row.amount := rfl

theorem weekend_scoreRow (c : Option ℚ) (k : List String) (row : Row) :
    (scoreRow c k row).weekend = weekendFlag row.date := rfl

theorem late_night_scoreRow (c : Option ℚ) (k : List String) (row : Row) :
    (scoreRow c k row).late_night = lateNightFlag row.date := rfl

theorem duplicate_scoreRow (c : Option ℚ) (k : List String) (row : Row) :
    (scoreRow c k row).duplicate = decide (2 ≤ k.count (dupKey row)) := rfl

theorem abs_amount_scoreRow (c : Option ℚ) (k : List String) (row : Row) :
    (scoreRow c k row).abs_amount =
      (match row.amount with
       | none => 0
       | some q => |q|) := rfl

theorem top1pct_scoreRow (c : Option ℚ) (k : List String) (row : Row) :
    (scoreRow c k row).top1pct =
      (match row.amount, c with
       | some a, some cut => decide (cut ≤ |a|)
       | _, _ => false) := rfl

theorem rkLE_iff {a b : ARow} :
    rkLE a b = true ↔
      b.risk_score < a.risk_score ∨
        (a.risk_score = b.risk_score ∧ b.abs_amount ≤ a.abs_amount) := by
  simp [rkLE]

theorem rkLE_total (a b : ARow) : rkLE a b || rkLE b a := by
  rcases lt_trichotomy a.risk_score b.risk_score with h | h | h
  · have : rkLE b a = true := rkLE_iff.mpr (Or.inl h)
    simp [this]
  · rcases le_total a.abs_amount b.abs_amount with h2 | h2
    · have : rkLE b a = true := rkLE_iff.mpr (Or.inr ⟨h.symm, h2⟩)
      simp [this]
    · have : rkLE a b = true := rkLE_iff.mpr (Or.inr ⟨h, h2⟩)
      simp [this]
  · have : rkLE a b = true := rkLE_iff.mpr (Or.inl h)
    simp [this]

theorem rkLE_trans (a b c : ARow) (hab : rkLE a b) (hbc : rkLE b c) :
    rkLE a c := by
  rcases rkLE_iff.mp hab with h1 | ⟨h1, h1'⟩ <;>
    rcases rkLE_iff.mp hbc with h2 | ⟨h2, h2'⟩
  · exact rkLE_iff.mpr (Or.inl (h2.trans h1))
  · exact rkLE_iff.mpr (Or.inl (lt_of_eq_of_lt h2.symm h1))
  · exact rkLE_iff.mpr (Or.inl (lt_of_lt_of_eq h2 (h1.symm)))
  · exact rkLE_iff.mpr (Or.inr ⟨h1.trans h2, h2'.trans h1'⟩)

/-- Stability of `mergeSort` in filtered form: the sublist of elements
satisfying `p` is untouched by the sort whenever any two `p`-elements compare
`le` both ways. -/
theorem filter_mergeSort_eq {α : Type _} (le : α → α → Bool)
    (htrans : ∀ a b c : α, le a b → le b c → le a c)
    (htot : ∀ a b : α, le a b || le b a)
    (p : α → Bool) (hp : ∀ x y : α, p x = true → p y = true → le x y = true)
    (l : List α) : (l.mergeSort le).filter p = l.filter p := by
  have h1 : List.Sublist (l.filter p) l := List.filter_sublist l
  have hpair : (l.filter p).Pairwise (fun a b => le a b = true) := by
    refine List.pairwise_of_forall_mem_list ?_
    intro a ha b hb
    exact hp a b (List.of_mem_filter ha) (List.of_mem_filter hb)
  have h2 : List.Sublist (l.filter p) (l.mergeSort le) :=
    List.sublist_mergeSort htrans htot hpair h1
  have h3 : (l.filter p).filter p = l.filter p := by
    refine List.filter_eq_self.mpr ?_
    intro a ha
    exact List.of_mem_filter ha
  have h4 : List.Sublist (l.filter p) ((l.mergeSort le).filter p) := by
    rw [← h3]
    exact h2.filter p
  have h5 : ((l.mergeSort le).filter p).length = (l.filter p).length :=
    ((l.mergeSort_perm le).filter p).length_eq
  exact (h4.eq_of_length h5.symm).symm

/-- Auxiliary to `two_le_count_of_get`: the ordered-positions case. -/
theorem two_le_count_aux {α : Type _} [DecidableEq α] (l : List α)
    (i j : ℕ) (hij : i < j) (x : α)
    (hqi : l[i]? = some x) (hqj : l[j]? = some x) : 2 ≤ l.count x := by
  have hmem1 : x ∈ l.take (i + 1) := by
    refine List.getElem?_mem (n := i) ?_
    rw [List.getElem?_take]
    simp only [Nat.lt_succ_self i, if_true]
    exact hqi
  have hmem2 : x ∈ l.drop (i + 1) := by
    refine List.getElem?_mem (n := j - (i + 1)) ?_
    rw [List.getElem?_drop]
    have hidx : (i + 1) + (j - (i + 1)) = j := by omega
    rw [hidx]
    exact hqj
  calc 2 = 1 + 1 := rfl
    _ ≤ (l.take (i + 1)).count x + (l.drop (i + 1)).count x :=
      Nat.add_le_add (List.count_pos_iff.mpr hmem1)
        (List.count_pos_iff.mpr hmem2)
    _ = l.count x := by
      rw [← List.count_append, List.take_append_drop]

/-- Two distinct positions holding the same value force a count of at
least 2. -/
theorem two_le_count_of_getElem {α : Type _} [DecidableEq α] (l : List α)
    (i j : ℕ) (hij : i ≠ j) (x : α)
    (hqi : l[i]? = some x) (hqj : l[j]? = some x) : 2 ≤ l.count x := by
  rcases Nat.lt_trichotomy i j with hlt | heq | hlt
  · exact two_le_count_aux l i j hlt x hqi hqj
  · exact absurd heq hij
  · exact two_le_count_aux l j i hlt x hqj hqi

/-- Positional access of the analyzed table, in `getElem?` form. -/
theorem analyze_getElem_some (df : List Row) (i : ℕ)
    (hi : i < (analyze df).length) :
    (analyze df)[i]? = some ((analyze df).getD i arowDefault) := by
  rw [List.getD_eq_getElem?_getD, List.getElem?_eq_getElem hi]
  rfl

/-- The batch key list equals, as a multiset, the per-row keys of the
analyzed table. -/
theorem count_keys_analyze (df : List Row) (x : String) :
    ((analyze df).map (fun r => dupKey (baseOf r))).count x =
      ((df.map normalizeRow).map dupKey).count x := by
  have h1 : ((analyze df).map (fun r => dupKey (baseOf r))).Perm
      ((scoredRows df).map (fun r => dupKey (baseOf r))) :=
    (List.mergeSort_perm (scoredRows df) rkLE).map _
  have h2 : (scoredRows df).map (fun r => dupKey (baseOf r)) =
      (df.map normalizeRow).map dupKey := by
    rw [scoredRows_eq, List.map_map]
    rfl
  rw [← h2]
  exact h1.count_eq x

/-- Exactness transfer of `pymod` from modulus 1000 down to 100. -/
theorem pymod_100_of_pymod_1000 (x : ℚ) (h : pymod x 1000 = 0) :
    pymod x 100 = 0 := by
  unfold pymod at h ⊢
  set k := ⌊x / 1000⌋ with hk
  have hx : x = ((1000 * k : ℤ) : ℚ) := by
    push_cast
    linarith
  rw [hx]
  have h100 : ((1000 * k : ℤ) : ℚ) / 100 = ((10 * k : ℤ) : ℚ) := by
    push_cast
    ring
  rw [h100, Int.floor_intCast]
  push_cast
  ring

/-! ## Claim theorems -/

/-- C1: for every row of the analyzed table, `risk_score` equals the sum of
the `WEIGHTS` weights of exactly the rules (in the fixed nine-rule table)
whose flag is true on that row; nothing else contributes. -/
theorem risk_score_weighted_sum (df : List Row) (r : ARow)
    (hr : r ∈ analyze df) :
    r.risk_score = ((cols.filter (fun c => flagOf r c)).map WEIGHTS).sum ∧
    cols.map WEIGHTS = [1, 2, 1, 1, 2, 2, 2, 3, 2] := by
  refine ⟨?_, by decide⟩
  obtain ⟨row, -, rfl⟩ := exists_of_mem_analyze hr
  rw [risk_score_scoreRow, sum_map_ite]
  rfl

/-- Witness for C1: the weighted-sum law evaluated on a singleton batch. -/
theorem risk_score_weighted_sum_witness :
    (scoreRow (cutoffOf [normalizeRow wRow]) [dupKey (normalizeRow wRow)]
        (normalizeRow wRow)).risk_score =
      ((cols.filter (fun c => flagOf (scoreRow (cutoffOf [normalizeRow wRow])
        [dupKey (normalizeRow wRow)] (normalizeRow wRow)) c)).map
          WEIGHTS).sum ∧
    cols.map WEIGHTS = [1, 2, 1, 1, 2, 2, 2, 3, 2] :=
  risk_score_weighted_sum [wRow] _
    (by rw [analyze_singleton]; exact List.mem_singleton.mpr rfl)

/-- C2: for every row of the analyzed table, `reasons` contains a rule name
iff that rule's flag is true, contains nothing else, has no repeats, and is
ordered as a sublist of the canonical order `cols`. -/
theorem reasons_canonical (df : List Row) (r : ARow) (hr : r ∈ analyze df) :
    cols = ["round_100", "round_1000", "cents_zero", "weekend", "late_night",
      "risky_memo", "manual_source", "duplicate", "top1pct"] ∧
    (∀ name, name ∈ r.reasons ↔ (name ∈ cols ∧ flagOf r name = true)) ∧
    r.reasons.Nodup ∧ List.Sublist r.reasons cols := by
  obtain ⟨row, -, rfl⟩ := exists_of_mem_analyze hr
  refine ⟨rfl, fun name => ?_, ?_, ?_⟩
  · rw [reasons_scoreRow]
    simp only [List.mem_filter]
    exact Iff.rfl
  · rw [reasons_scoreRow]
    exact List.Nodup.filter _ (by decide)
  · rw [reasons_scoreRow]
    exact List.filter_sublist _

/-- Witness for C2 on a singleton batch. -/
theorem reasons_canonical_witness :
    cols = ["round_100", "round_1000", "cents_zero", "weekend", "late_night",
      "risky_memo", "manual_source", "duplicate", "top1pct"] ∧
    ("risky_memo" ∈ (scoreRow (cutoffOf [normalizeRow wRow])
        [dupKey (normalizeRow wRow)] (normalizeRow wRow)).reasons ↔
      ("risky_memo" ∈ cols ∧ flagOf (scoreRow (cutoffOf [normalizeRow wRow])
        [dupKey (normalizeRow wRow)] (normalizeRow wRow)) "risky_memo" =
          true)) ∧
    (scoreRow (cutoffOf [normalizeRow wRow]) [dupKey (normalizeRow wRow)]
        (normalizeRow wRow)).reasons.Nodup ∧
    List.Sublist (scoreRow (cutoffOf [normalizeRow wRow])
        [dupKey (normalizeRow wRow)] (normalizeRow wRow)).reasons cols := by
  have h := reasons_canonical [wRow] _
    (by rw [analyze_singleton]; exact List.mem_singleton.mpr rfl)
  exact ⟨h.1, h.2.1 "risky_memo", h.2.2.1, h.2.2.2⟩

/-- C3: a null `amount` makes `round_100`, `round_1000`, `cents_zero` and
`top1pct` false, and a null `date` makes `weekend` and `late_night` false —
never an error, never true. -/
theorem null_fields_rules_false (df : List Row) (r : ARow)
    (hr : r ∈ analyze df) :
    (r.amount = none → r.round_100 = false ∧ r.round_1000 = false ∧
      r.cents_zero = false ∧ r.top1pct = false) ∧
    (r.date = none → r.weekend = false ∧ r.late_night = false) := by
  obtain ⟨row, -, rfl⟩ := exists_of_mem_analyze hr
  constructor
  · intro h
    rw [amount_scoreRow] at h
    refine ⟨?_, ?_, ?_, ?_⟩
    · rw [round_100_scoreRow, h]
      rfl
    · rw [round_1000_scoreRow, h]
      rfl
    · rw [cents_zero_scoreRow, h]
      rfl
    · rw [top1pct_scoreRow, h]
  · intro h
    rw [date_scoreRow] at h
    constructor
    · rw [weekend_scoreRow, h]
      rfl
    · rw [late_night_scoreRow, h]
      rfl

/-- Witness for C3: a row with null amount and null date has all six
dependent flags false. -/
theorem null_fields_rules_false_witness :
    ((scoreRow (cutoffOf [normalizeRow uniqRow]) [dupKey (normalizeRow uniqRow)]
        (normalizeRow uniqRow)).round_100 = false ∧
     (scoreRow (cutoffOf [normalizeRow uniqRow]) [dupKey (normalizeRow uniqRow)]
        (normalizeRow uniqRow)).round_1000 = false ∧
     (scoreRow (cutoffOf [normalizeRow uniqRow]) [dupKey (normalizeRow uniqRow)]
        (normalizeRow uniqRow)).cents_zero = false ∧
     (scoreRow (cutoffOf [normalizeRow uniqRow]) [dupKey (normalizeRow uniqRow)]
        (normalizeRow uniqRow)).top1pct = false) ∧
    ((scoreRow (cutoffOf [normalizeRow uniqRow]) [dupKey (normalizeRow uniqRow)]
        (normalizeRow uniqRow)).weekend = false ∧
     (scoreRow (cutoffOf [normalizeRow uniqRow]) [dupKey (normalizeRow uniqRow)]
        (normalizeRow uniqRow)).late_night = false) := by
  have h := null_fields_rules_false [uniqRow] _
    (by rw [analyze_singleton]; exact List.mem_singleton.mpr rfl)
  exact ⟨h.1 rfl, h.2 rfl⟩

/-- C10: on every analyzed row, a true `round_1000` flag forces a true
`round_100` flag, and a null amount makes both false. -/
theorem round_1000_implies_round_100 (df : List Row) (r : ARow)
    (hr : r ∈ analyze df) :
    (r.round_1000 = true → r.round_100 = true) ∧
    (r.amount = none → r.round_1000 = false ∧ r.round_100 = false) := by
  obtain ⟨row, -, rfl⟩ := exists_of_mem_analyze hr
  constructor
  · intro h
    rw [round_1000_scoreRow] at h
    rw [round_100_scoreRow]
    rcases hA : row.amount with _ | q
    · rw [hA] at h
      exact absurd h (by simp [_is_round_multiple])
    · rw [hA] at h
      have h0 : pymod |q| 1000 = 0 := by
        simpa [_is_round_multiple] using h
      simp [_is_round_multiple, pymod_100_of_pymod_1000 _ h0]
  · intro h
    rw [amount_scoreRow] at h
    constructor
    · rw [round_1000_scoreRow, h]
      rfl
    · rw [round_100_scoreRow, h]
      rfl

/-- Witness for C10: the witness row's amount 2000 triggers `round_1000`,
and the theorem then yields `round_100`. -/
theorem round_1000_implies_round_100_witness :
    (scoreRow (cutoffOf [normalizeRow wRow]) [dupKey (normalizeRow wRow)]
        (normalizeRow wRow)).round_100 = true :=
  (round_1000_implies_round_100 [wRow] _
      (by rw [analyze_singleton]; exact List.mem_singleton.mpr rfl)).1
    (by
      rw [round_1000_scoreRow,
        show (normalizeRow wRow).amount = some 2000 from rfl]
      norm_num [_is_round_multiple, pymod])

/-- C5: the analyzed table is sorted by `(risk_score, abs_amount)`, both
descending, and the sort is stable: the rows carrying any fixed score and
absolute amount appear in the same order as in the scored pre-sort table,
which is in normalized-input order. -/
theorem ranking_sorted_stable (df : List Row) :
    ((analyze df).Pairwise (fun a b => b.risk_score ≤ a.risk_score ∧
      (b.risk_score = a.risk_score → b.abs_amount ≤ a.abs_amount))) ∧
    (∀ s q, (analyze df).filter
        (fun r => decide (r.risk_score = s) && decide (r.abs_amount = q)) =
      (scoredRows df).filter
        (fun r => decide (r.risk_score = s) && decide (r.abs_amount = q))) ∧
    (∀ r ∈ analyze df, (r.amount = none → r.abs_amount = 0) ∧
      (∀ a, r.amount = some a → r.abs_amount = |a|)) := by
  refine ⟨?_, ?_, ?_⟩
  · have hs := List.sorted_mergeSort rkLE_trans rkLE_total (scoredRows df)
    rw [analyze]
    refine hs.imp ?_
    intro a b hab
    rcases rkLE_iff.mp hab with h | ⟨h, h2⟩
    · exact ⟨le_of_lt h, fun he => absurd (he ▸ h) (lt_irrefl _)⟩
    · exact ⟨le_of_eq h.symm, fun _ => h2⟩
  · intro s q
    rw [analyze]
    apply filter_mergeSort_eq rkLE rkLE_trans rkLE_total
    intro x y hx hy
    simp only [Bool.and_eq_true, decide_eq_true_eq] at hx hy
    exact rkLE_iff.mpr
      (Or.inr ⟨hx.1.trans hy.1.symm, le_of_eq (hy.2.trans hx.2.symm)⟩)
  · intro r hr
    obtain ⟨row, -, rfl⟩ := exists_of_mem_analyze hr
    constructor
    · intro h
      rw [amount_scoreRow] at h
      rw [abs_amount_scoreRow, h]
    · intro a h
      rw [amount_scoreRow] at h
      rw [abs_amount_scoreRow, h]

/-- Witness for C5 on a singleton batch: the tie-break key `abs_amount` of
the witness row is the absolute value of its amount. -/
theorem ranking_sorted_stable_witness :
    (scoreRow (cutoffOf [normalizeRow wRow]) [dupKey (normalizeRow wRow)]
        (normalizeRow wRow)).abs_amount = |(2000 : ℚ)| :=
  ((ranking_sorted_stable [wRow]).2.2 _
      (by rw [analyze_singleton]; exact List.mem_singleton.mpr rfl)).2
    2000 rfl

/-- C7: the analysis is a deterministic, side-effect-free function of the
input table: two runs on the same input yield identical analyzed tables and
identical reports. (The embedding is a pure Lean function, mirroring the
source's freedom from I/O, global mutable state and randomness; `analyze`
works on a copy of its input frame.) -/
theorem analysis_deterministic (df : List Row) :
    analyze df = analyze df ∧
      reportOf (analyze df) = reportOf (analyze df) :=
  ⟨rfl, rfl⟩

/-- C9: the analyzed table has exactly one row per input row, and its base
columns are a permutation of the normalized input rows — columns are only
added, never removed, and no row is dropped. -/
theorem rows_preserved (df : List Row) :
    (analyze df).length = df.length ∧
    ((analyze df).map baseOf).Perm (df.map normalizeRow) := by
  refine ⟨analyze_length df, ?_⟩
  have h1 : ((analyze df).map baseOf).Perm ((scoredRows df).map baseOf) :=
    (List.mergeSort_perm (scoredRows df) rkLE).map baseOf
  have h2 : (scoredRows df).map baseOf = df.map normalizeRow := by
    rw [scoredRows_eq, List.map_map]
    have hcomp : baseOf ∘ scoreRow (cutoffOf (df.map normalizeRow))
        ((df.map normalizeRow).map dupKey) = id :=
      funext (fun row => baseOf_scoreRow _ _ row)
    rw [hcomp, List.map_id]
  rw [← h2]
  exact h1

/-- C8: when no row reaches risk score 2 — in particular for the empty
batch — the flagged subset is empty and the report carries the true scanned
count, zero flagged, and three empty top-5 lists. -/
theorem no_flagged_report_empty (df : List Row)
    (h : ∀ r ∈ analyze df, r.risk_score < 2) :
    flaggedRows (analyze df) = [] ∧
    (reportOf (analyze df)).total = df.length ∧
    (reportOf (analyze df)).flagged = 0 ∧
    (reportOf (analyze df)).topRules = [] ∧
    (reportOf (analyze df)).byUser = [] ∧
    (reportOf (analyze df)).byAccount = [] := by
  have hfl : flaggedRows (analyze df) = [] := by
    rw [flaggedRows, List.filter_eq_nil_iff]
    intro r hr
    simp only [decide_eq_true_eq]
    exact not_le.mpr (h r hr)
  refine ⟨hfl, ?_, ?_, ?_, ?_, ?_⟩ <;>
    simp [reportOf, hfl, analyze_length]

/-- `quantileQ` on a batch with at least one value: the interpolation
formula over the sorted list, made explicit. -/
theorem quantileQ_eq_of_ne_nil (q : ℚ) (xs : List ℚ) (s : List ℚ)
    (hs : s = xs.mergeSort (fun a b => decide (a ≤ b))) (hne : s ≠ []) :
    quantileQ q xs =
      some (s.getD (⌊q * ((s.length : ℚ) - 1)⌋).toNat 0 +
        (q * ((s.length : ℚ) - 1) -
          (((⌊q * ((s.length : ℚ) - 1)⌋).toNat : ℕ) : ℚ)) *
        (s.getD (⌈q * ((s.length : ℚ) - 1)⌉).toNat 0 -
          s.getD (⌊q * ((s.length : ℚ) - 1)⌋).toNat 0)) := by
  obtain ⟨hd, tl, hst⟩ := List.exists_cons_of_ne_nil hne
  subst hs
  rw [hst]
  simp only [quantileQ]
  rw [hst]

/-- C6: the outlier cutoff is the 0.99 quantile of the non-null absolute
amounts when the batch has at least 100 rows, else the 0.95 quantile,
linearly interpolated at rank q·(n−1) over the sorted values; `top1pct`
holds on a row iff its amount is non-null and its absolute value is at
least the cutoff (ties included); null amounts are excluded from the
quantile input and always fail the rule. -/
theorem top1pct_quantile_cutoff (df : List Row) (q : ℚ)
    (hq : q = if 100 ≤ df.length then 99/100 else 95/100)
    (s : List ℚ)
    (hs : s = (absAmounts (df.map normalizeRow)).mergeSort
      (fun a b => decide (a ≤ b))) :
    (s ≠ [] →
      cutoffOf (df.map normalizeRow) =
        some (s.getD (⌊q * ((s.length : ℚ) - 1)⌋).toNat 0 +
          (q * ((s.length : ℚ) - 1) -
            (((⌊q * ((s.length : ℚ) - 1)⌋).toNat : ℕ) : ℚ)) *
          (s.getD (⌈q * ((s.length : ℚ) - 1)⌉).toNat 0 -
            s.getD (⌊q * ((s.length : ℚ) - 1)⌋).toNat 0))) ∧
    (∀ r ∈ analyze df, r.top1pct = true ↔
      ∃ a c, r.amount = some a ∧
        cutoffOf (df.map normalizeRow) = some c ∧ c ≤ |a|) := by
  constructor
  · intro hne
    rw [cutoffOf, List.length_map]
    by_cases hlen : 100 ≤ df.length
    · rw [if_pos hlen, hq, if_pos hlen]
      exact quantileQ_eq_of_ne_nil _ _ s hs hne
    · rw [if_neg hlen, hq, if_neg hlen]
      exact quantileQ_eq_of_ne_nil _ _ s hs hne
  · intro r hr
    obtain ⟨row, -, rfl⟩ := exists_of_mem_analyze hr
    rw [top1pct_scoreRow, amount_scoreRow]
    rcases hA : row.amount with _ | a
    · simp [hA]
    · rcases hC : cutoffOf (df.map normalizeRow) with _ | cut
      · simp [hC]
      · simp [hC]

/-- Witness for C6 on a singleton batch with amount 2000: the 0.95 quantile
of the one-element population is 2000 and the row's `top1pct` law holds. -/
theorem top1pct_quantile_cutoff_witness :
    cutoffOf ([wRow].map normalizeRow) = some 2000 ∧
    (scoreRow (cutoffOf [normalizeRow wRow]) [dupKey (normalizeRow wRow)]
        (normalizeRow wRow)).top1pct = true := by
  have habs : absAmounts ([wRow].map normalizeRow) = [|(2000 : ℚ)|] := rfl
  have habs2 : |(2000 : ℚ)| = 2000 := by norm_num
  have h := top1pct_quantile_cutoff [wRow] (95/100)
    (by norm_num) [(2000 : ℚ)]
    (by rw [habs, habs2, List.mergeSort_singleton])
  have hcut : cutoffOf ([wRow].map normalizeRow) = some 2000 := by
    rw [h.1 (by simp)]
    norm_num
  refine ⟨hcut, ?_⟩
  refine (h.2 _
    (by rw [analyze_singleton]; exact List.mem_singleton.mpr rfl)).mpr ?_
  exact ⟨2000, 2000, rfl, hcut, by norm_num⟩

/-- Evaluation: the collision batch has no non-null amounts, hence no
cutoff. -/
theorem cutoff_cexBatch : cutoffOf (cexBatch.map normalizeRow) = none := by
  have hnorm : cexBatch.map normalizeRow = cexBatch := by decide
  rw [hnorm]
  simp [cutoffOf, absAmounts, quantileQ, cexBatch, cexRow1, cexRow2]

/-- Evaluation of the full pipeline on the collision batch. -/
theorem analyze_cexBatch_eq : analyze cexBatch =
    [scoreRow none (cexBatch.map dupKey) cexRow1,
     scoreRow none (cexBatch.map dupKey) cexRow2] := by
  have hscored : scoredRows cexBatch =
      [scoreRow none (cexBatch.map dupKey) cexRow1,
       scoreRow none (cexBatch.map dupKey) cexRow2] := by
    rw [scoredRows_eq, cutoff_cexBatch]
    decide
  rw [analyze, hscored, mergeSort_pair]
  have h : rkLE (scoreRow none (cexBatch.map dupKey) cexRow1)
      (scoreRow none (cexBatch.map dupKey) cexRow2) = true := by decide
  rw [h]
  simp

/-- Evaluation: the duplicate-pair batch has no non-null amounts either. -/
theorem cutoff_dupBatch : cutoffOf (dupBatch.map normalizeRow) = none := by
  have hnorm : dupBatch.map normalizeRow = dupBatch := by decide
  rw [hnorm]
  simp [cutoffOf, absAmounts, quantileQ, dupBatch, dupRowA, dupRowB]

/-- Evaluation of the full pipeline on the duplicate-pair batch. -/
theorem analyze_dupBatch_eq : analyze dupBatch =
    [scoreRow none (dupBatch.map dupKey) dupRowA,
     scoreRow none (dupBatch.map dupKey) dupRowB] := by
  have hscored : scoredRows dupBatch =
      [scoreRow none (dupBatch.map dupKey) dupRowA,
       scoreRow none (dupBatch.map dupKey) dupRowB] := by
    rw [scoredRows_eq, cutoff_dupBatch]
    decide
  rw [analyze, hscored, mergeSort_pair]
  have h : rkLE (scoreRow none (dupBatch.map dupKey) dupRowA)
      (scoreRow none (dupBatch.map dupKey) dupRowB) = true := by decide
  rw [h]
  simp

/-- C4 counterexample: in `cexBatch` the two rows have distinct composite
keys (day, account, rounded amount, lowercased memo), each occurring exactly
once in the batch, yet both analyzed rows carry `duplicate = true`: the `|`
delimiter inside `memo` resp. `account` collides the two key strings. This
refutes the claim's "composite key occurs exactly once ⇒ duplicate = false"
direction. -/
theorem duplicate_composite_key_counterexample :
    ((analyze cexBatch).map (fun r => r.duplicate) = [true, true]) ∧
    compositeKey (normalizeRow cexRow1) ≠ compositeKey (normalizeRow cexRow2) ∧
    ((cexBatch.map (fun r => compositeKey (normalizeRow r))).count
        (compositeKey (normalizeRow cexRow1)) = 1) ∧
    ((cexBatch.map (fun r => compositeKey (normalizeRow r))).count
        (compositeKey (normalizeRow cexRow2)) = 1) := by
  refine ⟨?_, by decide, by decide, by decide⟩
  rw [analyze_cexBatch_eq]
  decide

/-- C4 (amended): any two analyzed rows at distinct positions with identical
composite key (calendar day, account, amount rounded to 2 decimals,
lowercased memo — irrespective of `entry_id`, `user` and time-of-day) both
have `duplicate = true`; and any row whose delimiter-joined key *string*
occurs exactly once in the batch has `duplicate = false`. (The original
unique-composite-key direction is false: `|` inside `account`/`memo` can
collide two distinct composite keys, see the counterexample.) -/
theorem duplicate_key_law (df : List Row) :
    (∀ i j : ℕ, i < (analyze df).length → j < (analyze df).length → i ≠ j →
      compositeKey (baseOf ((analyze df).getD i arowDefault)) =
        compositeKey (baseOf ((analyze df).getD j arowDefault)) →
      ((analyze df).getD i arowDefault).duplicate = true ∧
        ((analyze df).getD j arowDefault).duplicate = true) ∧
    (∀ r ∈ analyze df,
      ((df.map normalizeRow).map dupKey).count (dupKey (baseOf r)) = 1 →
      r.duplicate = false) := by
  constructor
  · intro i j hi hj hij hck
    have hsi := analyze_getElem_some df i hi
    have hsj := analyze_getElem_some df j hj
    set gi := (analyze df).getD i arowDefault with hgi
    set gj := (analyze df).getD j arowDefault with hgj
    have hkeq : dupKey (baseOf gj) = dupKey (baseOf gi) := by
      rw [dupKey, dupKey, hck]
    have hqi : ((analyze df).map (fun r => dupKey (baseOf r)))[i]? =
        some (dupKey (baseOf gi)) := by
      rw [List.getElem?_map, hsi]
      rfl
    have hqj : ((analyze df).map (fun r => dupKey (baseOf r)))[j]? =
        some (dupKey (baseOf gi)) := by
      rw [List.getElem?_map, hsj]
      simp [hkeq]
    have hmem_i : gi ∈ analyze df := List.getElem?_mem hsi
    have hmem_j : gj ∈ analyze df := List.getElem?_mem hsj
    have hcnt : 2 ≤ ((analyze df).map (fun r => dupKey (baseOf r))).count
        (dupKey (baseOf gi)) :=
      two_le_count_of_getElem _ i j hij _ hqi hqj
    rw [count_keys_analyze] at hcnt
    obtain ⟨rowi, -, hri⟩ := exists_of_mem_analyze hmem_i
    obtain ⟨rowj, -, hrj⟩ := exists_of_mem_analyze hmem_j
    constructor
    · rw [hri, duplicate_scoreRow]
      have hx : dupKey (baseOf gi) = dupKey rowi := by
        rw [hri, baseOf_scoreRow]
      rw [hx] at hcnt
      simp only [decide_eq_true_eq]
      exact hcnt
    · rw [hrj, duplicate_scoreRow]
      have hx : dupKey (baseOf gi) = dupKey rowj := by
        rw [← hkeq, hrj, baseOf_scoreRow]
      rw [hx] at hcnt
      simp only [decide_eq_true_eq]
      exact hcnt
  · intro r hr hcount
    obtain ⟨row, -, rfl⟩ := exists_of_mem_analyze hr
    rw [duplicate_scoreRow]
    rw [baseOf_scoreRow] at hcount
    rw [hcount]
    decide

/-- Witness for the amended C4: the true duplicate pair is flagged at both
output positions, and a row with a batch-unique key string is not
flagged. -/
theorem duplicate_key_law_witness :
    (((analyze dupBatch).getD 0 arowDefault).duplicate = true ∧
     ((analyze dupBatch).getD 1 arowDefault).duplicate = true) ∧
    (scoreRow (cutoffOf [normalizeRow uniqRow]) [dupKey (normalizeRow uniqRow)]
        (normalizeRow uniqRow)).duplicate = false := by
  constructor
  · exact (duplicate_key_law dupBatch).1 0 1
      (by rw [analyze_length]; decide)
      (by rw [analyze_length]; decide)
      (by decide)
      (by rw [analyze_dupBatch_eq]; decide)
  · exact (duplicate_key_law [uniqRow]).2 _
      (by rw [analyze_singleton]; exact List.mem_singleton.mpr rfl)
      (by decide)

/-- Witness for C8: the empty batch is valid and yields the all-empty
report. -/
theorem no_flagged_report_empty_witness :
    flaggedRows (analyze []) = [] ∧
    (reportOf (analyze [])).total = 0 ∧
    (reportOf (analyze [])).flagged = 0 ∧
    (reportOf (analyze [])).topRules = [] ∧
    (reportOf (analyze [])).byUser = [] ∧
    (reportOf (analyze [])).byAccount = [] :=
  no_flagged_report_empty []
    (by
      rw [analyze_nil]
      intro r hr
      exact absurd hr (List.not_mem_nil r))
